import Mathlib

/-!
Verification development for the SongGuesserServer pool-building code.

The definitions below are shallow embeddings of the Express handlers in
`index.js` (routes `/create-pool`, `/api/create-pool`, `/users`, `/api/users`)
and of the round-robin variant (routes `/api/create-pool`, `/api/users` in the
second source file).  Remote fetches are modelled as oracle functions passed to
the handlers: a fetch either succeeds with the raw catalog items
(`Except.ok items`) or fails (`Except.error ()`), exactly the two outcomes the
`try`/`catch` blocks in the source distinguish.  The random comparator passed
to `Array.prototype.sort` is modelled by a stream of fair coins, one coin per
comparator invocation (the comparator `() => 0.5 - Math.random()` is positive
or negative with probability 1/2 each).
-/

/-- Raw catalog item as delivered by the remote music API: the fields of
`track` that the handlers read (`track.id`, `track.name`, `track.artists`,
`track.album.images`, `track.uri`). -/
structure RawTrack where
  id : String
  name : String
  artistNames : List String
  albumImages : List String
  uri : String
deriving DecidableEq

/-- Canonical track shape produced by the `/create-pool` handler's `map`
(`{ id, name, artist, albumCover, uri }` in `index.js`). -/
structure Track where
  id : String
  name : String
  artist : String
  albumCover : String
  uri : String
deriving DecidableEq

/-- Track shape with a `weight` field, produced by the round-robin variant's
`map`s (`{ id, name, artist, albumCover, uri, weight }`). -/
structure WTrack where
  id : String
  name : String
  artist : String
  albumCover : String
  uri : String
  weight : ℚ
deriving DecidableEq

/-- Stored user record (`users.json` entry). -/
structure User where
  spotifyId : String
  displayName : String
  accessToken : String
  refreshToken : String
  profileImage : String
deriving DecidableEq

/-- The JavaScript first-occurrence deduplication idiom
`l.filter((track, index, self) => self.findIndex(t => t.id === track.id) === index)`,
generic in the key projection `k` (the source always uses `t.id`).  An element
is kept exactly when its index equals the first index at which its key occurs
in the whole list. -/
def jsUniqueBy (k : α → String) (l : List α) : List α :=
  (l.enum.filter (fun p => l.findIdx (fun t => k t == k p.2) == p.1)).map Prod.snd

/-- Every element surviving the dedup filter comes from the input list. -/
theorem jsUniqueBy_subset (k : α → String) (l : List α) :
    ∀ t, t ∈ jsUniqueBy k l → t ∈ l := by
  intro t ht
  unfold jsUniqueBy at ht
  obtain ⟨p, hp, rfl⟩ := List.mem_map.mp ht
  have hp2 : p ∈ l.enum := (List.mem_filter.mp hp).1
  rw [List.enum_eq_zip_range] at hp2
  exact (List.of_mem_zip (a := p.1) (b := p.2) (by simpa using hp2)).2

/-- A pair surviving the filter satisfies the index condition. -/
theorem jsUniqueBy_kept (k : α → String) (l : List α) {p : ℕ × α}
    (hp : p ∈ l.enum.filter (fun q => l.findIdx (fun t => k t == k q.2) == q.1)) :
    l.findIdx (fun t => k t == k p.2) = p.1 := by
  have := (List.mem_filter.mp hp).2
  simpa using this

/-- Keys are pairwise distinct after the dedup filter. -/
theorem jsUniqueBy_nodup_keys (k : α → String) (l : List α) :
    ((jsUniqueBy k l).map k).Nodup := by
  unfold jsUniqueBy
  rw [List.map_map]
  show List.Pairwise _ _
  rw [List.pairwise_map]
  have hfst : (l.enum.filter
      (fun q => l.findIdx (fun t => k t == k q.2) == q.1)).Pairwise
      (fun p q => p.1 ≠ q.1) := by
    have henum : l.enum.Pairwise (fun p q => p.1 ≠ q.1) := by
      have : (l.enum.map Prod.fst).Nodup := by
        rw [List.enum_map_fst]; exact List.nodup_range _
      have := this
      rw [List.Nodup, List.pairwise_map] at this
      exact this
    exact List.Pairwise.sublist (List.filter_sublist l.enum) henum
  refine hfst.imp_of_mem ?_
  intro p q hpmem hqmem hne
  intro hkey
  apply hne
  have hp := jsUniqueBy_kept k l hpmem
  have hq := jsUniqueBy_kept k l hqmem
  simp only [Function.comp] at hkey
  have : (fun t => k t == k ((Prod.snd : ℕ × α → α) p))
      = (fun t => k t == k ((Prod.snd : ℕ × α → α) q)) := by
    funext t; rw [hkey]
  rw [← hp, ← hq, this]

/-- The element at the first index where a key occurs survives the dedup
filter. -/
theorem jsUniqueBy_first_mem (k : α → String) (l : List α) {c : String}
    (h : l.findIdx (fun t => k t == c) < l.length) :
    l.get ⟨l.findIdx (fun t => k t == c), h⟩ ∈ jsUniqueBy k l := by
  have hpred := @List.findIdx_getElem _ (fun t => k t == c) l h
  have hkey : k (l.get ⟨l.findIdx (fun t => k t == c), h⟩) = c := by
    simpa using hpred
  unfold jsUniqueBy
  apply List.mem_map.mpr
  refine ⟨(l.findIdx (fun t => k t == c), l.get ⟨l.findIdx (fun t => k t == c), h⟩),
    ?_, rfl⟩
  apply List.mem_filter.mpr
  constructor
  · have hlen : l.findIdx (fun t => k t == c) < l.enum.length := by simpa using h
    have hval := List.getElem_enum l (l.findIdx (fun t => k t == c)) hlen
    have hmem := List.getElem_mem hlen
    rw [hval] at hmem
    simpa using hmem
  · have hfn : (fun t => k t == k (l.get ⟨l.findIdx (fun t => k t == c), h⟩))
        = (fun t => k t == c) := by
      funext t; rw [hkey]
    simp only [hfn]
    simp

/-- In a list whose keys are pairwise distinct, filtering for the key of a
member returns exactly that member. -/
theorem filter_key_eq_single (k : α → String) {l : List α} {t : α} {c : String}
    (hn : (l.map k).Nodup) (ht : t ∈ l) (hc : k t = c) :
    l.filter (fun u => k u == c) = [t] := by
  induction l with
  | nil => cases ht
  | cons a l ih =>
    rw [List.map_cons, List.nodup_cons] at hn
    rcases List.mem_cons.mp ht with rfl | hmem
    · have hrest : l.filter (fun u => k u == c) = [] := by
        rw [List.filter_eq_nil_iff]
        intro u hu hbeq
        apply hn.1
        have hku : k u = c := by simpa using hbeq
        have hkt : k t = k u := by rw [hku, hc]
        rw [hkt]
        exact List.mem_map_of_mem k hu
      simp [List.filter_cons, hc, hrest]
    · have hka : ¬ (k a == c) = true := by
        intro hbeq
        apply hn.1
        have : k a = c := by simpa using hbeq
        rw [this, ← hc]
        exact List.mem_map_of_mem k hmem
      rw [List.filter_cons]
      simp only [hka, if_false]
      exact ih hn.2 hmem

/-- One step of the comparator-based sort: insert `a` into the already placed
prefix, spending one coin per comparator invocation.  A `true` coin stands for
a positive comparator result (`0.5 - Math.random() > 0`, keep `a` in front), a
`false` coin for a negative one (move past the next element). -/
def coinInsert (a : α) : List α → List Bool → List α × List Bool
  | [], cs => ([a], cs)
  | b :: bs, [] => (a :: b :: bs, [])
  | b :: bs, c :: cs =>
    if c then (a :: b :: bs, cs)
    else
      let r := coinInsert a bs cs
      (b :: r.1, r.2)

/-- Comparator-based sort of the whole list, threading the coin stream through
the successive insertions; this is the shallow embedding of
`uniqueTracks.sort(() => 0.5 - Math.random())`. -/
def coinSortAux (acc : List α) : List α → List Bool → List α × List Bool
  | [], cs => (acc, cs)
  | a :: l, cs =>
    let r := coinInsert a acc cs
    coinSortAux r.1 l r.2

/-- Shuffle step of the `/create-pool` handler: comparator-based sort driven
by a stream of comparator outcomes. -/
def coinSort (l : List α) (cs : List Bool) : List α × List Bool :=
  coinSortAux [] l cs

/-- Inserting an element yields a permutation of consing it. -/
theorem coinInsert_perm (a : α) :
    ∀ (s : List α) (cs : List Bool), ((coinInsert a s cs).1).Perm (a :: s) := by
  intro s
  induction s with
  | nil => intro cs; simp [coinInsert]
  | cons b bs ih =>
    intro cs
    cases cs with
    | nil => simp [coinInsert]
    | cons c cs =>
      by_cases hc : c
      · simp [coinInsert, hc]
      · simp only [coinInsert, hc, if_false]
        refine List.Perm.trans ((ih cs).cons b) ?_
        exact List.Perm.swap a b bs

/-- The comparator-based sort permutes the placed prefix and the remaining
elements. -/
theorem coinSortAux_perm :
    ∀ (l : List α) (acc : List α) (cs : List Bool),
      ((coinSortAux acc l cs).1).Perm (acc ++ l) := by
  intro l
  induction l with
  | nil => intro acc cs; simp [coinSortAux]
  | cons a l ih =>
    intro acc cs
    simp only [coinSortAux]
    refine List.Perm.trans (ih _ _) ?_
    refine List.Perm.trans (((coinInsert_perm a acc cs).append_right l)) ?_
    simpa using List.perm_middle.symm

/-- The shuffle returns a permutation of its input, whatever the comparator
outcomes are. -/
theorem coinSort_perm (l : List α) (cs : List Bool) :
    ((coinSort l cs).1).Perm l := by
  simpa using coinSortAux_perm l [] cs

/-- Signal categories fetched by the round-robin variant of
`/api/create-pool`: the top-50 `medium_term` request and the top-10
`long_term` request. -/
inductive Category where
  | mediumTerm
  | longTerm
deriving DecidableEq

/-- Weight assigned per category by the round-robin variant:
`weight: 0.7  // Medium-term weight` and `weight: 1.0  // Long-term weight`. -/
def categoryWeight : Category → ℚ
  | .mediumTerm => 7/10
  | .longTerm => 1

/-- Normalizer of the round-robin variant: the `map` producing
`{ id, name, artist, albumCover, uri, weight }` from a raw item, with the
placeholder art URL when the album has no image. -/
def normalizeTrack (r : RawTrack) (c : Category) : WTrack :=
  { id := r.id
    name := r.name
    artist := String.intercalate ", " r.artistNames
    albumCover := r.albumImages.head?.getD "https://via.placeholder.com/150"
    uri := r.uri
    weight := categoryWeight c }

/-- Normalizer of the `/create-pool` handler in `index.js`: the `map`
producing `{ id, name, artist, albumCover, uri }`. -/
def normalizePlain (r : RawTrack) : Track :=
  { id := r.id
    name := r.name
    artist := String.intercalate ", " r.artistNames
    albumCover := r.albumImages.head?.getD "https://via.placeholder.com/150"
    uri := r.uri }

/-- Per-user collector of the round-robin variant of `/api/create-pool`.  The
single `try` block first fetches and maps the medium-term items, then fetches
and maps the long-term items, combines them and deduplicates by id; the
`catch` block skips the assignment `userTracks[user.spotifyId] = ...`
entirely, so a failure of either fetch makes the user contribute nothing
(`none`). -/
def collectUserTracks (mediumResp longResp : Except Unit (List RawTrack)) :
    Option (List WTrack) :=
  match mediumResp with
  | .error _ => none
  | .ok mItems =>
    match longResp with
    | .error _ => none
    | .ok lItems =>
      some (jsUniqueBy WTrack.id
        (mItems.map (fun r => normalizeTrack r .mediumTerm)
          ++ lItems.map (fun r => normalizeTrack r .longTerm)))

/-- Contribution of one user inside the `/create-pool` loop of `index.js`: on
a successful fetch the mapped tracks are appended to `allTracks`, on a caught
error the user contributes nothing and the loop moves on. -/
def userContribution (fetch : User → Except Unit (List RawTrack)) (u : User) :
    List Track :=
  match fetch u with
  | .ok items => items.map normalizePlain
  | .error _ => []

/-- Dedup-and-shuffle tail of the `/create-pool` handler: concatenate the
contributions (`allTracks`), keep the first occurrence of each id
(`uniqueTracks`), and sort with the random comparator (`shuffledTracks`). -/
def poolOf (contribs : List (List Track)) (coins : List Bool) : List Track :=
  (coinSort (jsUniqueBy Track.id contribs.flatten) coins).1

/-- Request-validation failures of the `/create-pool` handler in `index.js`:
the 400 response `No valid users found` and the 404 response
`No matching users found`. -/
inductive PoolError where
  | noUsersRequested
  | noMatchingUsers
deriving DecidableEq

/-- The `/create-pool` handler of `index.js`.  `userIds` is `none` when the
request body carries no array (`!userIds`); the store (`users.json`) and the
per-user fetch outcomes are inputs.  Validation: missing or empty `userIds`
gives the 400 error, no matching store entry gives the 404 error; otherwise
the response is the deduplicated, comparator-shuffled concatenation of the
per-user contributions. -/
def createPool (userIds : Option (List String)) (store : List User)
    (fetch : User → Except Unit (List RawTrack)) (coins : List Bool) :
    Except PoolError (List Track) :=
  match userIds with
  | none => .error .noUsersRequested
  | some ids =>
    if ids.isEmpty then .error .noUsersRequested
    else
      let users := store.filter (fun u => ids.contains u.spotifyId)
      if users.isEmpty then .error .noMatchingUsers
      else .ok (poolOf (users.map (userContribution fetch)) coins)

/-- Track shape of the `/api/create-pool` handler in `index.js`
(`{ uri, artist, name, albumCover }`, empty-string art fallback, no id). -/
structure ApiTrack where
  uri : String
  artist : String
  name : String
  albumCover : String
deriving DecidableEq

/-- Normalizer of the `/api/create-pool` handler in `index.js`. -/
def apiNormalize (r : RawTrack) : ApiTrack :=
  { uri := r.uri
    artist := String.intercalate ", " r.artistNames
    name := r.name
    albumCover := r.albumImages.head?.getD "" }

/-- Failure responses of the `/api/create-pool` handler in `index.js`: the
400 response `No users selected` and the catch-all 500 response
`Failed to create pool`. -/
inductive ApiError where
  | noUsersSelected
  | failedToCreatePool
deriving DecidableEq

/-- `Promise.all` over the per-user fetches: if any promise rejects, the
whole combination rejects and control reaches the handler's `catch`. -/
def promiseAll : List (Except Unit (List ApiTrack)) →
    Except Unit (List (List ApiTrack))
  | [] => .ok []
  | r :: rs =>
    match r with
    | .error e => .error e
    | .ok v =>
      match promiseAll rs with
      | .error e => .error e
      | .ok vs => .ok (v :: vs)

/-- The `/api/create-pool` handler of `index.js`: validates only that some
user ids were sent, selects the matching users, fetches all their tracks via
`Promise.all`, and returns the flattened lists without deduplication. -/
def apiCreatePool (userIds : Option (List String)) (store : List User)
    (fetch : User → Except Unit (List RawTrack)) :
    Except ApiError (List ApiTrack) :=
  match userIds with
  | none => .error .noUsersSelected
  | some ids =>
    if ids.isEmpty then .error .noUsersSelected
    else
      let selected := store.filter (fun u => ids.contains u.spotifyId)
      match promiseAll (selected.map
          (fun u => Except.map (List.map apiNormalize) (fetch u))) with
      | .error _ => .error .failedToCreatePool
      | .ok lists => .ok lists.flatten

/-- One pass of the round-robin loop: for each user list in order, take its
head if it is nonempty (`tracks.shift()` guarded by `tracks.length > 0`). -/
def rrHeads (ls : List (List α)) : List α :=
  ls.filterMap List.head?

/-- The user lists after one pass of the round-robin loop. -/
def rrTails (ls : List (List α)) : List (List α) :=
  ls.map List.tail

/-- A pass never increases the total number of remaining tracks. -/
theorem sum_map_tail_le (ls : List (List α)) :
    ((rrTails ls).map List.length).sum ≤ (ls.map List.length).sum := by
  unfold rrTails
  rw [List.map_map]
  apply List.sum_le_sum
  intro l _
  simp only [Function.comp_apply, List.length_tail]
  exact Nat.sub_le _ _

/-- While some list is nonempty, a pass strictly decreases the total number
of remaining tracks. -/
theorem sum_map_tail_lt {ls : List (List α)}
    (h : ¬ ls.all List.isEmpty = true) :
    ((rrTails ls).map List.length).sum < (ls.map List.length).sum := by
  induction ls with
  | nil => simp at h
  | cons y ys ih =>
    by_cases hy : y.isEmpty = true
    · have hys : ¬ ys.all List.isEmpty = true := by
        intro hall
        exact h (by simp [List.all_cons, hy, hall])
      have := ih hys
      have hyt : y.tail = y := by
        rw [List.isEmpty_iff.mp hy]; rfl
      simp only [rrTails, List.map_cons, List.sum_cons] at this ⊢
      rw [hyt]
      omega
    · cases y with
      | nil => simp at hy
      | cons a t =>
        have hrest := sum_map_tail_le ys
        simp only [rrTails, List.map_cons, List.sum_cons, List.tail_cons,
          List.length_cons] at hrest ⊢
        omega

/-- The round-robin while loop of the second variant's `/api/create-pool`:
repeatedly pass over the user lists, taking the head of each nonempty list,
until every list is empty. -/
def roundRobin (ls : List (List α)) : List α :=
  if h : ls.all List.isEmpty then []
  else rrHeads ls ++ roundRobin (rrTails ls)
termination_by (ls.map List.length).sum
decreasing_by exact sum_map_tail_lt h

/-- When every list is empty their concatenation is empty. -/
theorem flatten_eq_nil_of_all_isEmpty {ls : List (List α)}
    (h : ls.all List.isEmpty = true) : ls.flatten = [] := by
  rw [List.all_eq_true] at h
  rw [List.flatten_eq_nil_iff]
  intro l hl
  exact List.isEmpty_iff.mp (h l hl)

/-- One pass followed by the concatenated tails is a permutation of the
concatenated lists. -/
theorem rrHeads_append_tails_perm (ls : List (List α)) :
    (rrHeads ls ++ (rrTails ls).flatten).Perm ls.flatten := by
  induction ls with
  | nil => simp [rrHeads, rrTails]
  | cons y ys ih =>
    cases y with
    | nil =>
      simpa [rrHeads, rrTails, List.filterMap_cons] using ih
    | cons a t =>
      simp only [rrHeads, rrTails, List.filterMap_cons, List.head?_cons,
        List.map_cons, List.tail_cons, List.flatten_cons, List.cons_append]
      refine List.Perm.cons a ?_
      refine List.Perm.trans ?_ (List.Perm.append_left t ih)
      simpa [List.append_assoc] using
        (@List.perm_append_comm _ (ys.filterMap List.head?)
          t).append_right ((ys.map List.tail).flatten)

/-- Fuel-indexed form of the round-robin correctness: with enough fuel to
cover the total number of tracks, the loop output is a permutation of the
concatenated user lists. -/
theorem roundRobin_perm_fuel :
    ∀ (n : ℕ) (ls : List (List α)), (ls.map List.length).sum ≤ n →
      (roundRobin ls).Perm ls.flatten := by
  intro n
  induction n with
  | zero =>
    intro ls hle
    rw [roundRobin.eq_def]
    split
    · next h => rw [flatten_eq_nil_of_all_isEmpty h]
    · next h =>
        have hlt := Nat.lt_of_lt_of_le (sum_map_tail_lt h) hle
        omega
  | succ n ih =>
    intro ls hle
    rw [roundRobin.eq_def]
    split
    · next h => rw [flatten_eq_nil_of_all_isEmpty h]
    · next h =>
      have htail : ((rrTails ls).map List.length).sum ≤ n :=
        Nat.le_of_lt_succ (Nat.lt_of_lt_of_le (sum_map_tail_lt h) hle)
      exact List.Perm.trans
        (List.Perm.append_left (rrHeads ls) (ih (rrTails ls) htail))
        (rrHeads_append_tails_perm ls)

/-- The round-robin output is a permutation of the concatenation of the user
lists: every contributed track appears exactly as often as it was
contributed. -/
theorem roundRobin_perm (ls : List (List α)) :
    (roundRobin ls).Perm ls.flatten :=
  roundRobin_perm_fuel ((ls.map List.length).sum) ls le_rfl

/-- Fuel-indexed form of order preservation: each user list embeds into the
round-robin output in order. -/
theorem roundRobin_sublist_fuel :
    ∀ (n : ℕ) (ls : List (List α)) (u : List α),
      (ls.map List.length).sum ≤ n → u ∈ ls → u.Sublist (roundRobin ls) := by
  intro n
  induction n with
  | zero =>
    intro ls u hle hu
    rw [roundRobin.eq_def]
    split
    · next h =>
      have : u = [] := List.isEmpty_iff.mp (List.all_eq_true.mp h u hu)
      rw [this]
    · next h =>
        have hlt := Nat.lt_of_lt_of_le (sum_map_tail_lt h) hle
        omega
  | succ n ih =>
    intro ls u hle hu
    rw [roundRobin.eq_def]
    split
    · next h =>
      have : u = [] := List.isEmpty_iff.mp (List.all_eq_true.mp h u hu)
      rw [this]
    · next h =>
      have htail : ((rrTails ls).map List.length).sum ≤ n :=
        Nat.le_of_lt_succ (Nat.lt_of_lt_of_le (sum_map_tail_lt h) hle)
      cases u with
      | nil => exact List.nil_sublist _
      | cons a t =>
        obtain ⟨l1, l2, rfl⟩ := List.append_of_mem hu
        have hheads : rrHeads (l1 ++ (a :: t) :: l2)
            = rrHeads l1 ++ a :: rrHeads l2 := by
          simp [rrHeads, List.filterMap_append, List.filterMap_cons]
        have htmem : t ∈ rrTails (l1 ++ (a :: t) :: l2) := by
          simp [rrTails, List.map_append]
        have hsub : t.Sublist (roundRobin (rrTails (l1 ++ (a :: t) :: l2))) :=
          ih _ t htail htmem
        rw [hheads, List.append_assoc]
        refine List.Sublist.trans ?_
          (List.sublist_append_right (rrHeads l1) _)
        rw [List.cons_append]
        exact List.Sublist.cons₂ a
          (hsub.trans (List.sublist_append_right (rrHeads l2) _))

/-- Number of distinct users whose contribution contains the given track id
(each contribution counts once however often the id occurs inside it). -/
def popularity (contribs : List (List WTrack)) (c : String) : ℕ :=
  (contribs.filter (fun ts => ts.any (fun t => t.id == c))).length

/-- Modelled from the spec: the `WeightedTrack` record of section 3, carrying
`popularityCount` and `finalWeight`; no such record is built anywhere in the
source. -/
structure WeightedTrack where
  track : WTrack
  popularityCount : ℕ
  finalWeight : ℚ
deriving DecidableEq

/-- Modelled from the spec: the cross-user aggregator of section 4.3, stated
in the spec's words for comparison with the code's merge site.  For each
surviving distinct track the final weight is the first-seen source weight
divided by the popularity count. -/
def specAggregate (contribs : List (List WTrack)) : List WeightedTrack :=
  (jsUniqueBy WTrack.id contribs.flatten).map
    (fun t => { track := t
                popularityCount := popularity contribs t.id
                finalWeight := t.weight / (popularity contribs t.id : ℚ) })

/-- Cross-user merge site of the `/create-pool` handler applied to weighted
contributions: concatenate all users' lists and keep the first occurrence of
each id. -/
def crossUserMerge (contribs : List (List WTrack)) : List WTrack :=
  jsUniqueBy WTrack.id contribs.flatten

/-- Response row of the `/api/users` handler of the round-robin variant:
`{ id, name, accessToken, refreshToken, profileImage }`. -/
structure ApiUserView where
  id : String
  name : String
  accessToken : String
  refreshToken : String
  profileImage : String
deriving DecidableEq

/-- The `/api/users` handler of the round-robin variant: maps every stored
record to a response row that copies both tokens verbatim. -/
def apiUsersView (users : List User) : List ApiUserView :=
  users.map (fun u =>
    { id := u.spotifyId
      name := u.displayName
      accessToken := u.accessToken
      refreshToken := u.refreshToken
      profileImage := u.profileImage })

/-- The `GET /users` handler of `index.js`: `res.json(readUsers())`, the
stored records themselves. -/
def usersView (users : List User) : List User :=
  users

/-- A positive popularity count means some user's contribution, and hence the
concatenation, contains the id. -/
theorem popularity_pos_mem {contribs : List (List WTrack)} {c : String}
    (h : 0 < popularity contribs c) :
    ∃ t ∈ contribs.flatten, t.id = c := by
  unfold popularity at h
  rw [List.length_pos_iff_exists_mem] at h
  obtain ⟨ts, hts⟩ := h
  have hmem := (List.mem_filter.mp hts).1
  have hany := (List.mem_filter.mp hts).2
  rw [List.any_eq_true] at hany
  obtain ⟨t, ht, hbeq⟩ := hany
  refine ⟨t, List.mem_flatten.mpr ⟨ts, hmem, ht⟩, by simpa using hbeq⟩

/-- Sample raw catalog item. -/
def rawA : RawTrack :=
  { id := "t1", name := "Song A", artistNames := ["Artist"],
    albumImages := ["art"], uri := "spotify:track:t1" }

/-- Sample stored user. -/
def user1 : User :=
  { spotifyId := "u1", displayName := "User One", accessToken := "acc1",
    refreshToken := "ref1", profileImage := "img1" }

/-- Fetch oracle where every request fails. -/
def failingFetch : User → Except Unit (List RawTrack) :=
  fun _ => Except.error ()

/-- Fetch oracle where every request succeeds with an empty item list. -/
def emptyOkFetch : User → Except Unit (List RawTrack) :=
  fun _ => Except.ok []

/-- Fetch oracle returning the same raw item twice. -/
def dupFetch : User → Except Unit (List RawTrack) :=
  fun _ => Except.ok [rawA, rawA]

/-- Weighted track with id `t1` as contributed by a first user. -/
def wA : WTrack :=
  { id := "t1", name := "Song A", artist := "Artist", albumCover := "art",
    uri := "spotify:track:t1", weight := 7/10 }

/-- Weighted track with the same id `t1` as contributed by a second user. -/
def wB : WTrack :=
  { id := "t1", name := "Song A", artist := "Artist", albumCover := "art",
    uri := "spotify:track:t1", weight := 3/10 }

/-- Two single-track contributions sharing the id `t1`. -/
def contribsC1 : List (List WTrack) := [[wA], [wB]]

/-- C1 counterexample: with two users sharing track id `t1`
(`popularityCount = 2`), the code's cross-user merge keeps the first-seen
record with its weight `7/10` unchanged, whereas the claimed
`finalWeight = sourceWeight / popularityCount` would be `7/20`; the merge
assigns no popularity count and performs no division. -/
theorem c1_counterexample :
    popularity contribsC1 "t1" = 2 ∧
    crossUserMerge contribsC1 = [wA] ∧
    wA.weight = 7/10 ∧
    (specAggregate contribsC1).map WeightedTrack.finalWeight
      = [(7 : ℚ)/10 / ((2 : ℕ) : ℚ)] ∧
    (7 : ℚ)/10 / ((2 : ℕ) : ℚ) = 7/20 ∧
    (7 : ℚ)/10 ≠ 7/20 := by
  refine ⟨rfl, rfl, rfl, rfl, by norm_num, by norm_num⟩

/-- C1 (amended): for every track id contained in the contributions of at
least one user, the cross-user merge of the `/create-pool` handler keeps
exactly one record for that id, namely the first-seen record of the
concatenated contributions, unchanged — no `popularityCount` is recorded and
the first-seen `sourceWeight` is not divided by the number of contributing
users. -/
theorem c1_merge_keeps_first_record (contribs : List (List WTrack))
    (c : String) (h : 0 < popularity contribs c) :
    ∃ hlt : contribs.flatten.findIdx (fun t => t.id == c)
        < contribs.flatten.length,
      contribs.flatten.get
          ⟨contribs.flatten.findIdx (fun t => t.id == c), hlt⟩
        ∈ crossUserMerge contribs ∧
      (crossUserMerge contribs).filter (fun u => u.id == c)
        = [contribs.flatten.get
            ⟨contribs.flatten.findIdx (fun t => t.id == c), hlt⟩] := by
  obtain ⟨t, htmem, htc⟩ := popularity_pos_mem h
  have hex : ∃ x ∈ contribs.flatten, (fun t => t.id == c) x = true :=
    ⟨t, htmem, by simpa using htc⟩
  have hlt := List.findIdx_lt_length_of_exists hex
  have hmem := jsUniqueBy_first_mem WTrack.id contribs.flatten (c := c) hlt
  have hkey : WTrack.id (contribs.flatten.get
      ⟨contribs.flatten.findIdx (fun t => t.id == c), hlt⟩) = c := by
    simpa using
      @List.findIdx_getElem _ (fun t => t.id == c) contribs.flatten hlt
  exact ⟨hlt, hmem,
    filter_key_eq_single WTrack.id
      (jsUniqueBy_nodup_keys WTrack.id contribs.flatten) hmem hkey⟩

/-- C1 witness: the amended statement evaluated on the two concrete
single-track contributions sharing id `t1`. -/
theorem c1_witness :
    0 < popularity contribsC1 "t1" ∧
    (∃ hlt : contribsC1.flatten.findIdx (fun t => t.id == "t1")
        < contribsC1.flatten.length,
      contribsC1.flatten.get
          ⟨contribsC1.flatten.findIdx (fun t => t.id == "t1"), hlt⟩
        ∈ crossUserMerge contribsC1 ∧
      (crossUserMerge contribsC1).filter (fun u => u.id == "t1")
        = [contribsC1.flatten.get
            ⟨contribsC1.flatten.findIdx (fun t => t.id == "t1"), hlt⟩]) :=
  ⟨by decide, c1_merge_keeps_first_record contribsC1 "t1" (by decide)⟩

/-- C2: the round-robin output has length `n1 + ... + nm`, is a permutation
of the concatenated contributions (every contributed track appears exactly as
often as contributed — in particular both copies of an id shared by two
users), and preserves each user's internal relative order (each contribution
is a sublist of the output). -/
theorem c2_roundRobin_fair (contribs : List (List WTrack)) :
    (roundRobin contribs).length = (contribs.map List.length).sum ∧
    (roundRobin contribs).Perm contribs.flatten ∧
    ∀ u, u ∈ contribs → u.Sublist (roundRobin contribs) := by
  refine ⟨?_, roundRobin_perm contribs,
    fun u hu => roundRobin_sublist_fuel _ contribs u le_rfl hu⟩
  rw [(roundRobin_perm contribs).length_eq, List.length_flatten]

/-- C2 witness: the round-robin guarantees evaluated on the two concrete
single-track contributions. -/
theorem c2_witness :
    ([wA] ∈ contribsC1) ∧
    (roundRobin contribsC1).length = (contribsC1.map List.length).sum ∧
    [wA].Sublist (roundRobin contribsC1) := by
  refine ⟨?_, (c2_roundRobin_fair contribsC1).1, ?_⟩
  · simp [contribsC1]
  · exact (c2_roundRobin_fair contribsC1).2.2 [wA] (by simp [contribsC1])

/-- Every user list of `rs` that maps to a rejected promise makes the whole
`Promise.all` reject. -/
theorem promiseAll_error {rs : List (Except Unit (List ApiTrack))}
    (h : ∃ r ∈ rs, r = Except.error ()) :
    promiseAll rs = Except.error () := by
  induction rs with
  | nil => obtain ⟨r, hr, _⟩ := h; cases hr
  | cons r rs ih =>
    obtain ⟨s, hs, hserr⟩ := h
    rcases List.mem_cons.mp hs with rfl | hmem
    · rw [hserr]; rfl
    · cases r with
      | error e => cases e; rfl
      | ok v =>
        have : promiseAll rs = Except.error () := ih ⟨s, hmem, hserr⟩
        simp [promiseAll, this]

/-- C3 counterexample: with a single selected user whose fetch fails, the
`/create-pool` handler has zero usable contributions yet responds with an
empty successful pool, not with a failure. -/
theorem c3_counterexample :
    createPool (some ["u1"]) [user1] failingFetch [] = Except.ok [] ∧
    Except.ok ([] : List Track) ≠ Except.error PoolError.noUsersRequested ∧
    Except.ok ([] : List Track) ≠ Except.error PoolError.noMatchingUsers := by
  refine ⟨rfl, by simp, by simp⟩

/-- C3 (amended): in the `/create-pool` loop a fetch error for one user never
aborts the other users' contributions (the failing user contributes the empty
list and is simply skipped); but when zero usable contributions remain the
handler returns an empty successful pool rather than a failure, and in the
`/api/create-pool` variant a single user's fetch error makes the whole build
fail through `Promise.all`. -/
theorem c3_error_isolation :
    (∀ (a b : List User) (u : User)
        (fetch : User → Except Unit (List RawTrack)),
      fetch u = Except.error () →
      (((a ++ u :: b).map (userContribution fetch)).flatten
        = ((a ++ b).map (userContribution fetch)).flatten)) ∧
    (∀ (ids : List String) (store : List User) (coins : List Bool)
        (fetch : User → Except Unit (List RawTrack)),
      ids.isEmpty = false →
      (store.filter (fun u => ids.contains u.spotifyId)).isEmpty = false →
      (∀ u, fetch u = Except.error ()) →
      createPool (some ids) store fetch coins = Except.ok []) ∧
    (∀ (ids : List String) (store : List User)
        (fetch : User → Except Unit (List RawTrack)) (u : User),
      ids.isEmpty = false →
      u ∈ store.filter (fun v => ids.contains v.spotifyId) →
      fetch u = Except.error () →
      apiCreatePool (some ids) store fetch
        = Except.error ApiError.failedToCreatePool) := by
  refine ⟨?_, ?_, ?_⟩
  · intro a b u fetch hu
    simp [List.map_append, List.flatten_append, userContribution, hu]
  · intro ids store coins fetch hids husers hf
    have hcontrib : ∀ u, userContribution fetch u = [] := by
      intro u; unfold userContribution; rw [hf u]
    have hflat : ((store.filter (fun u => ids.contains u.spotifyId)).map
        (userContribution fetch)).flatten = [] := by
      rw [List.flatten_eq_nil_iff]
      intro l hl
      obtain ⟨u, _, rfl⟩ := List.mem_map.mp hl
      exact hcontrib u
    simp only [createPool]
    rw [hids]
    simp only [Bool.false_eq_true, if_false]
    rw [husers]
    simp only [Bool.false_eq_true, if_false]
    unfold poolOf
    rw [hflat]
    rfl
  · intro ids store fetch u hids hu hf
    simp only [apiCreatePool]
    rw [hids]
    simp only [Bool.false_eq_true, if_false]
    have herr : promiseAll ((store.filter (fun v => ids.contains v.spotifyId)).map
        (fun v => Except.map (List.map apiNormalize) (fetch v)))
        = Except.error () := by
      apply promiseAll_error
      refine ⟨Except.map (List.map apiNormalize) (fetch u),
        List.mem_map_of_mem _ hu, ?_⟩
      rw [hf]
      rfl
    rw [herr]

/-- C3 witness: the amended statement evaluated at one user whose fetch
fails. -/
theorem c3_witness :
    ((([] ++ user1 :: []).map (userContribution failingFetch)).flatten
      = (([] ++ ([] : List User)).map (userContribution failingFetch)).flatten) ∧
    createPool (some ["u1"]) [user1] failingFetch [] = Except.ok [] ∧
    apiCreatePool (some ["u1"]) [user1] failingFetch
      = Except.error ApiError.failedToCreatePool :=
  ⟨c3_error_isolation.1 [] [] user1 failingFetch rfl,
   c3_error_isolation.2.1 ["u1"] [user1] [] failingFetch rfl rfl (fun _ => rfl),
   c3_error_isolation.2.2 ["u1"] [user1] failingFetch user1 rfl
     (by simp [user1]) rfl⟩

/-- C4 counterexample: when the medium-term fetch succeeds with one item but
the long-term fetch fails, the per-user collector contributes nothing at all
(`none`), not the successful category's normalized tracks. -/
theorem c4_counterexample :
    collectUserTracks (Except.ok [rawA]) (Except.error ()) = none ∧
    (none : Option (List WTrack))
      ≠ some [normalizeTrack rawA Category.mediumTerm] := by
  refine ⟨rfl, by simp⟩

/-- C4 (amended): the single `try` block covers both category fetches, so a
failure of either category discards the user's whole contribution; the user
contributes tracks exactly when both fetches succeed, in which case the
result is the deduplicated concatenation of the normalized medium-term and
long-term items. -/
theorem c4_all_or_nothing :
    (∀ longResp, collectUserTracks (Except.error ()) longResp = none) ∧
    (∀ mItems, collectUserTracks (Except.ok mItems) (Except.error ()) = none) ∧
    (∀ mItems lItems,
      collectUserTracks (Except.ok mItems) (Except.ok lItems)
        = some (jsUniqueBy WTrack.id
            (mItems.map (fun r => normalizeTrack r .mediumTerm)
              ++ lItems.map (fun r => normalizeTrack r .longTerm)))) :=
  ⟨fun _ => rfl, fun _ => rfl, fun _ _ => rfl⟩

/-- C5: whenever the `/create-pool` handler answers successfully, the
returned pool contains each track id at most once. -/
theorem c5_pool_ids_nodup (uids : Option (List String)) (store : List User)
    (fetch : User → Except Unit (List RawTrack)) (coins : List Bool)
    (pool : List Track) (h : createPool uids store fetch coins = Except.ok pool) :
    (pool.map Track.id).Nodup := by
  cases uids with
  | none => simp [createPool] at h
  | some ids =>
    simp only [createPool] at h
    split at h
    · simp at h
    · split at h
      · simp at h
      · have hpool := (Except.ok.injEq _ _).mp h
        subst hpool
        unfold poolOf
        exact ((coinSort_perm _ coins).map Track.id).nodup_iff.mpr
          (jsUniqueBy_nodup_keys Track.id _)

/-- C5 witness: a fetch returning the same raw item twice still yields a pool
that lists the id `t1` once. -/
theorem c5_witness :
    createPool (some ["u1"]) [user1] dupFetch []
      = Except.ok [normalizePlain rawA] ∧
    (([normalizePlain rawA]).map Track.id).Nodup :=
  ⟨rfl, c5_pool_ids_nodup (some ["u1"]) [user1] dupFetch [] [normalizePlain rawA] rfl⟩

/-- C6: every track in the dedup-and-shuffle output of the `/create-pool`
handler comes from one of the input contributions; the pipeline never invents
a track. -/
theorem c6_no_invented_tracks (contribs : List (List Track))
    (coins : List Bool) (hne : contribs ≠ []) (t : Track)
    (ht : t ∈ poolOf contribs coins) :
    ∃ c ∈ contribs, t ∈ c := by
  unfold poolOf at ht
  have hperm := coinSort_perm (jsUniqueBy Track.id contribs.flatten) coins
  have ht2 : t ∈ jsUniqueBy Track.id contribs.flatten := hperm.mem_iff.mp ht
  have ht3 := jsUniqueBy_subset Track.id contribs.flatten t ht2
  exact List.mem_flatten.mp ht3

/-- C6 witness: the guarantee evaluated at a single one-track
contribution. -/
theorem c6_witness :
    ([[normalizePlain rawA]] ≠ ([] : List (List Track))) ∧
    normalizePlain rawA ∈ poolOf [[normalizePlain rawA]] [] ∧
    ∃ c ∈ [[normalizePlain rawA]], normalizePlain rawA ∈ c := by
  have hmem : normalizePlain rawA ∈ poolOf [[normalizePlain rawA]] [] := by
    rw [show poolOf [[normalizePlain rawA]] [] = [normalizePlain rawA] from rfl]
    exact List.mem_singleton.mpr rfl
  exact ⟨by simp, hmem,
    c6_no_invented_tracks [[normalizePlain rawA]] [] (by simp)
      (normalizePlain rawA) hmem⟩

/-- C7 counterexample: a non-empty request whose ids resolve to no stored
user makes the `/api/create-pool` handler answer with an empty successful
pool instead of a no-matching-users error (that handler has no such
check). -/
theorem c7_counterexample :
    apiCreatePool (some ["u1"]) [] emptyOkFetch = Except.ok [] ∧
    Except.ok ([] : List ApiTrack) ≠ Except.error ApiError.noUsersSelected ∧
    Except.ok ([] : List ApiTrack) ≠ Except.error ApiError.failedToCreatePool := by
  refine ⟨rfl, by simp, by simp⟩

/-- C7 (amended): the `/create-pool` handler returns its no-users-requested
error exactly when the id list is missing or empty and its no-matching-users
error exactly when the list is non-empty but resolves to no stored user,
independently of the fetch oracle in both cases; the `/api/create-pool`
variant rejects a missing or empty list but answers an unresolvable non-empty
list with an empty successful pool. -/
theorem c7_validation :
    (∀ (uids : Option (List String)) (store : List User)
        (fetch : User → Except Unit (List RawTrack)) (coins : List Bool),
      createPool uids store fetch coins = Except.error PoolError.noUsersRequested
        ↔ (uids = none ∨ uids = some [])) ∧
    (∀ (uids : Option (List String)) (store : List User)
        (fetch : User → Except Unit (List RawTrack)) (coins : List Bool),
      createPool uids store fetch coins = Except.error PoolError.noMatchingUsers
        ↔ (∃ ids, uids = some ids ∧ ids ≠ [] ∧
            store.filter (fun u => ids.contains u.spotifyId) = [])) ∧
    (∀ (ids : List String) (store : List User)
        (fetch : User → Except Unit (List RawTrack)),
      ids ≠ [] →
      store.filter (fun u => ids.contains u.spotifyId) = [] →
      apiCreatePool (some ids) store fetch = Except.ok []) := by
  refine ⟨?_, ?_, ?_⟩
  · intro uids store fetch coins
    cases uids with
    | none => simp [createPool]
    | some ids =>
      simp only [createPool]
      by_cases hids : ids.isEmpty = true
      · rw [if_pos hids]
        simp [List.isEmpty_iff.mp hids]
      · have hne : ids ≠ [] := by
          intro hnil; exact hids (by rw [hnil]; rfl)
        rw [if_neg hids]
        by_cases husers :
            (store.filter (fun u => ids.contains u.spotifyId)).isEmpty = true
        · rw [if_pos husers]
          simp [hne]
        · rw [if_neg husers]
          simp [hne]
  · intro uids store fetch coins
    cases uids with
    | none => simp [createPool]
    | some ids =>
      simp only [createPool]
      by_cases hids : ids.isEmpty = true
      · rw [if_pos hids]
        simp [List.isEmpty_iff.mp hids]
      · have hne : ids ≠ [] := by
          intro hnil; exact hids (by rw [hnil]; rfl)
        rw [if_neg hids]
        by_cases husers :
            (store.filter (fun u => ids.contains u.spotifyId)).isEmpty = true
        · rw [if_pos husers]
          constructor
          · intro _hL
            exact ⟨ids, rfl, hne, List.isEmpty_iff.mp husers⟩
          · intro _hR
            rfl
        · rw [if_neg husers]
          constructor
          · intro hcontr
            simp at hcontr
          · rintro ⟨ids2, hids2, -, hfil⟩
            obtain rfl := (Option.some.injEq _ _).mp hids2
            have : (store.filter
                (fun u => ids.contains u.spotifyId)).isEmpty = true := by
              rw [hfil]
              rfl
            exact absurd this husers
  · intro ids store fetch hne hfil
    have hids : ids.isEmpty = false := by
      cases ids with
      | nil => exact absurd rfl hne
      | cons a l => rfl
    simp only [apiCreatePool]
    rw [hids]
    simp only [Bool.false_eq_true, if_false]
    rw [hfil]
    rfl

/-- C7 witness: the amended statement evaluated at a request naming an
unknown user id, with a failing fetch oracle (the result does not depend on
the oracle). -/
theorem c7_witness :
    (["u1"] ≠ ([] : List String)) ∧
    (([] : List User).filter (fun u => List.contains ["u1"] u.spotifyId) = []) ∧
    apiCreatePool (some ["u1"]) ([] : List User) failingFetch = Except.ok [] :=
  ⟨by simp, rfl,
   c7_validation.2.2 ["u1"] [] failingFetch (by simp) rfl⟩

/-- Tracks used to exercise the comparator shuffle. -/
def tA : Track :=
  { id := "a", name := "A", artist := "artA", albumCover := "cA", uri := "uA" }

/-- Second shuffle-test track. -/
def tB : Track :=
  { id := "b", name := "B", artist := "artB", albumCover := "cB", uri := "uB" }

/-- Third shuffle-test track. -/
def tC : Track :=
  { id := "c", name := "C", artist := "artC", albumCover := "cC", uri := "uC" }

/-- All eight equally likely outcomes of three comparator coin flips. -/
def coinTriples : List (List Bool) :=
  [[false, false, false], [false, false, true], [false, true, false],
   [false, true, true], [true, false, false], [true, false, true],
   [true, true, false], [true, true, true]]

/-- C8: over the eight equally likely comparator outcomes for a three-track
pool, the comparator-based shuffle produces the ordering `[tC, tA, tB]` twice
but the ordering `[tA, tC, tB]` only once, so the orderings are not equally
likely (a uniform shuffle would give every ordering probability 1/6, which no
assignment of dyadic outcome counts can realize). -/
theorem c8_shuffle_not_uniform :
    ((coinTriples.map (fun cs => (coinSort [tA, tB, tC] cs).1)).count
      [tC, tA, tB] = 2) ∧
    ((coinTriples.map (fun cs => (coinSort [tA, tB, tC] cs).1)).count
      [tA, tC, tB] = 1) ∧
    (2 : ℕ) ≠ 1 := by
  refine ⟨by decide, by decide, by simp⟩

/-- C9 counterexample: the normalizer's two categories carry weights `7/10`
(medium-term) and `1` (long-term); no category is assigned the claimed
weight `3/10`. -/
theorem c9_counterexample :
    (normalizeTrack rawA Category.mediumTerm).weight = 7/10 ∧
    (normalizeTrack rawA Category.longTerm).weight = 1 ∧
    (7 : ℚ)/10 ≠ 3/10 ∧
    (1 : ℚ) ≠ 3/10 := by
  refine ⟨rfl, rfl, by norm_num, by norm_num⟩

/-- C9 (amended): the normalizer assigns `sourceWeight` by category lookup —
`7/10` for the medium-term category and `1` for the long-term category — and
every assigned weight lies in the interval `(0, 1]`. -/
theorem c9_weights (r : RawTrack) (c : Category) :
    (normalizeTrack r c).weight = categoryWeight c ∧
    categoryWeight Category.mediumTerm = 7/10 ∧
    categoryWeight Category.longTerm = 1 ∧
    0 < categoryWeight c ∧ categoryWeight c ≤ 1 := by
  refine ⟨rfl, rfl, rfl, ?_, ?_⟩ <;> cases c <;> norm_num [categoryWeight]

/-- C10: both user-listing handlers expose every stored record's access and
refresh tokens verbatim: the mapped `/api/users` row copies both token fields
and the `/users` route returns the records themselves. -/
theorem c10_tokens_exposed (users : List User) (u : User) (hu : u ∈ users) :
    (∃ v ∈ apiUsersView users,
      v.accessToken = u.accessToken ∧ v.refreshToken = u.refreshToken) ∧
    u ∈ usersView users :=
  ⟨⟨_, List.mem_map_of_mem _ hu, rfl, rfl⟩, hu⟩

/-- C10 witness: the token exposure evaluated at a concrete one-user
store. -/
theorem c10_witness :
    (user1 ∈ [user1]) ∧
    (∃ v ∈ apiUsersView [user1],
      v.accessToken = user1.accessToken ∧ v.refreshToken = user1.refreshToken) ∧
    user1 ∈ usersView [user1] :=
  ⟨List.mem_singleton.mpr rfl,
   (c10_tokens_exposed [user1] user1 (List.mem_singleton.mpr rfl)).1,
   (c10_tokens_exposed [user1] user1 (List.mem_singleton.mpr rfl)).2⟩
